import Mathlib

/-!
Shallow embedding of `src/tsh.c` (a tiny shell with job control) and proofs
about its job table, tokenizer, evaluator and signal-handler logic.

The job list is modelled as a `List Job` traversed front to back, mirroring
the C loops `for (i = 0; i < MAXJOBS; i++)` over `struct job_t job_list[MAXJOBS]`;
a list of length `MAXJOBS` corresponds to the C array, and a free slot is a
cleared job with `pid = 0` exactly as in the C code.
-/

namespace Tsh

/-- `#define MAXJOBS 16` — max jobs at any point in time. -/
def MAXJOBS : Nat := 16

/-- `#define MAXARGS 128` — max args on a command line. -/
def MAXARGS : Nat := 128

/-- Job states: `UNDEF`, `FG`, `BG`, `ST` from tsh.c lines 30–33. -/
inductive JobState
  | UNDEF
  | FG
  | BG
  | ST
deriving DecidableEq, Repr

/-- `struct job_t`: pid, jid, state, cmdline (tsh.c lines 58–63).
`pid` is an `Int` because the C code compares it against 1 and 0 with
signed semantics; `jid` is a `Nat` (allocated from 1 upward). -/
structure Job where
  pid : Int
  jid : Nat
  state : JobState
  cmdline : String
deriving DecidableEq, Repr

/-- `clearjob` — the all-zero job that marks a free slot (tsh.c lines 733–739). -/
def clearedJob : Job := ⟨0, 0, .UNDEF, ""⟩

/-- The shell's job-table state: the `job_list` array plus the global
`nextjid` counter (tsh.c lines 54 and 64). -/
structure ShellState where
  jobs : List Job
  nextjid : Nat
deriving DecidableEq, Repr

/-- `initjobs` — all slots cleared, `nextjid = 1` (tsh.c lines 54, 742–748). -/
def initState : ShellState :=
  ⟨List.replicate MAXJOBS clearedJob, 1⟩

/-- `maxjid` — largest `jid` field over all slots, 0 for an all-clear table
(tsh.c lines 751–760). -/
def maxjid (l : List Job) : Nat :=
  l.foldl (fun m j => max m j.jid) 0

/-- The slot-filling loop of `addjob` (tsh.c lines 771–787): find the first
slot with `pid == 0`, store the job there with jid `njid`, and compute the
new `nextjid` (`nextjid++; if (nextjid > MAXJOBS) nextjid = 1;`).
Returns `none` when no free slot exists. -/
def addjobAux (pid : Int) (state : JobState) (cmdline : String) :
    List Job → Nat → Option (List Job × Nat)
  | [], _ => none
  | j :: rest, njid =>
    if j.pid = 0 then
      some (⟨pid, njid, state, cmdline⟩ :: rest,
        if njid + 1 > MAXJOBS then 1 else njid + 1)
    else
      match addjobAux pid state cmdline rest njid with
      | some (rest2, n2) => some (j :: rest2, n2)
      | none => none

/-- `addjob` (tsh.c lines 763–790).  Result: (return value as Bool,
new state, lines printed).  `pid < 1` fails silently; a full table prints
"Tried to create too many jobs" and fails; otherwise the job is inserted in
the first free slot with jid `nextjid`.  The function never exits the
shell (no `exit` call in the C source). -/
def addjob (s : ShellState) (pid : Int) (state : JobState) (cmdline : String) :
    Bool × ShellState × List String :=
  if pid < 1 then (false, s, [])
  else
    match addjobAux pid state cmdline s.jobs s.nextjid with
    | some (jobs2, n2) => (true, ⟨jobs2, n2⟩, [])
    | none => (false, s, ["Tried to create too many jobs"])

/-- The scan loop of `deletejob` (tsh.c lines 801–807): clear the first slot
whose `pid` matches, `none` if no slot matches. -/
def deletejobAux (pid : Int) : List Job → Option (List Job)
  | [] => none
  | j :: rest =>
    if j.pid = pid then some (clearedJob :: rest)
    else (deletejobAux pid rest).map (j :: ·)

/-- `deletejob` (tsh.c lines 793–809).  `pid < 1` fails; otherwise the first
matching slot is cleared and `nextjid = maxjid(job_list) + 1`. -/
def deletejob (s : ShellState) (pid : Int) : Bool × ShellState :=
  if pid < 1 then (false, s)
  else
    match deletejobAux pid s.jobs with
    | some jobs2 => (true, ⟨jobs2, maxjid jobs2 + 1⟩)
    | none => (false, s)

/-- The scan loop of `stopjob` (tsh.c lines 820–826): set the first matching
slot's state to `ST`. -/
def stopjobAux (pid : Int) : List Job → Option (List Job)
  | [] => none
  | j :: rest =>
    if j.pid = pid then some ({ j with state := .ST } :: rest)
    else (stopjobAux pid rest).map (j :: ·)

/-- `stopjob` (tsh.c lines 812–827). -/
def stopjob (s : ShellState) (pid : Int) : Bool × ShellState :=
  if pid < 1 then (false, s)
  else
    match stopjobAux pid s.jobs with
    | some jobs2 => (true, ⟨jobs2, s.nextjid⟩)
    | none => (false, s)

/-- `fgpid` — pid of the first slot in `FG` state, 0 if none
(tsh.c lines 830–838). -/
def fgpid (l : List Job) : Int :=
  match l.find? (fun j => j.state = .FG) with
  | some j => j.pid
  | none => 0

/-- `getjobpid` — first slot whose pid matches, guarded by `pid < 1`
(tsh.c lines 841–851). -/
def getjobpid (l : List Job) (pid : Int) : Option Job :=
  if pid < 1 then none
  else l.find? (fun j => j.pid = pid)

/-- `getjobjid` — first slot whose jid matches, guarded by `jid < 1`
(tsh.c lines 854–864).  The C argument is a (possibly negative) `int`. -/
def getjobjid (l : List Job) (jid : Int) : Option Job :=
  if jid < 1 then none
  else l.find? (fun j => (j.jid : Int) = jid)

/-- `pid2jid` — jid of the first slot whose pid matches, 0 when `pid < 1`
or no slot matches (tsh.c lines 866–879). -/
def pid2jid (l : List Job) (pid : Int) : Nat :=
  if pid < 1 then 0
  else
    match l.find? (fun j => j.pid = pid) with
    | some j => j.jid
    | none => 0

/-! ### Tokenizer (`parseline`, tsh.c lines 463–588) -/

/-- `enum builtins_t` (tsh.c lines 71–76). -/
inductive Builtins
  | BUILTIN_NONE
  | BUILTIN_QUIT
  | BUILTIN_JOBS
  | BUILTIN_BG
  | BUILTIN_FG
deriving DecidableEq, Repr

/-- `struct cmdline_tokens` (tsh.c lines 66–77). -/
structure CmdTokens where
  argc : Nat
  argv : List String
  infile : Option String
  outfile : Option String
  builtins : Builtins
deriving DecidableEq, Repr

/-- Membership in `delims = " \t\r\n"` (tsh.c line 468). -/
def isDelim (c : Char) : Bool :=
  c = ' ' ∨ c = '\t' ∨ c = '\r' ∨ c = '\n'

/-- `buf += strspn(buf, delims)` — skip leading delimiters. -/
def skipDelims : List Char → List Char
  | [] => []
  | c :: rest => if isDelim c then skipDelims rest else c :: rest

/-- `next = buf + strcspn(buf, delims)` — split at the first delimiter. -/
def takeTok : List Char → List Char × List Char
  | [] => ([], [])
  | c :: rest =>
    if isDelim c then ([], c :: rest)
    else
      let p := takeTok rest
      (c :: p.1, p.2)

/-- `next = strchr(buf, quote)` — the characters before the closing quote
and the characters after it, or `none` when the quote is unmatched. -/
def findClose (q : Char) : List Char → Option (List Char × List Char)
  | [] => none
  | c :: rest =>
    if c = q then some ([], rest)
    else (findClose q rest).map (fun p => (c :: p.1, p.2))

theorem skipDelims_length (cs : List Char) :
    (skipDelims cs).length ≤ cs.length := by
  induction cs with
  | nil => simp [skipDelims]
  | cons c rest ih =>
    simp only [skipDelims]
    split
    · exact Nat.le_trans ih (Nat.le_succ _)
    · simp

theorem takeTok_length (cs : List Char) :
    (takeTok cs).1.length + (takeTok cs).2.length = cs.length := by
  induction cs with
  | nil => simp [takeTok]
  | cons c rest ih =>
    simp only [takeTok]
    split
    · simp
    · simp only [List.length_cons]
      omega

theorem findClose_length {q : Char} :
    ∀ {cs t r : List Char}, findClose q cs = some (t, r) →
      t.length + 1 + r.length = cs.length := by
  intro cs
  induction cs with
  | nil => intro t r h; simp [findClose] at h
  | cons c rest ih =>
    intro t r h
    simp only [findClose] at h
    split at h
    · simp at h
      obtain ⟨h1, h2⟩ := h
      subst h1; subst h2
      simp only [List.length_nil, List.length_cons]
      omega
    · match h2 : findClose q rest with
      | none => rw [h2] at h; simp at h
      | some (t2, r2) =>
        rw [h2] at h
        simp at h
        obtain ⟨h1, h3⟩ := h
        subst h1; subst h3
        have := ih h2
        simp only [List.length_cons]
        omega

theorem skipDelims_not_delim :
    ∀ {cs : List Char} {c : Char} {rest : List Char},
      skipDelims cs = c :: rest → isDelim c = false := by
  intro cs
  induction cs with
  | nil => intro c rest h; simp [skipDelims] at h
  | cons d tail ih =>
    intro c rest h
    simp only [skipDelims] at h
    split at h
    · exact ih h
    · rename_i hd
      cases h
      simpa using hd

theorem takeTok_fst_pos {c : Char} {rest : List Char} (h : isDelim c = false) :
    0 < (takeTok (c :: rest)).1.length := by
  simp [takeTok, h]

/-- Record a finished token according to `parsing_state`
(tsh.c lines 537–550): state 0 appends an argument, 1 sets the input
file, 2 sets the output file, anything else is the "Ambiguous I/O
redirection" error. -/
def recordTok (pstate : Nat) (tok : String) (args : List String)
    (inf outf : Option String) :
    Option (List String × Option String × Option String) :=
  match pstate with
  | 0 => some (args ++ [tok], inf, outf)
  | 1 => some (args, some tok, outf)
  | 2 => some (args, inf, some tok)
  | _ => none

/-- The main scan loop of `parseline` (tsh.c lines 492–557).  Returns the
argument list, the redirection files and the final `parsing_state`, or
`none` for a parse error (`return -1` in C).  `pstate ||| 1` / `||| 2`
mirror `parsing_state |= ST_INFILE` / `ST_OUTFILE`; a token is terminated
at the first delimiter (plain) or at the matching quote character, and
scanning resumes one character past the terminator (`buf = next + 1`);
recording stops once `argc >= MAXARGS-1`.  The `fuel` argument only
makes the recursion structural: every iteration on a nonempty remainder
consumes at least one character, so the `cs.length + 1` supplied by
`parseline` never runs out (`plLoop_fuel_irrelevant` below makes this
formal: the result is the same under every sufficient fuel). -/
def plLoop (fuel : Nat) (cs : List Char) (pstate : Nat) (args : List String)
    (inf outf : Option String) :
    Option (List String × Option String × Option String × Nat) :=
  match fuel with
  | 0 => none
  | fuel2 + 1 =>
    match skipDelims cs with
    | [] => some (args, inf, outf, pstate)
    | c :: rest =>
      if c = '<' then
        if inf.isSome then none
        else plLoop fuel2 rest (pstate ||| 1) args inf outf
      else if c = '>' then
        if outf.isSome then none
        else plLoop fuel2 rest (pstate ||| 2) args inf outf
      else if c = Char.ofNat 39 ∨ c = '"' then
        match findClose c rest with
        | none => none
        | some (tokCs, after) =>
          match recordTok pstate ⟨tokCs⟩ args inf outf with
          | none => none
          | some (args2, inf2, outf2) =>
            if args2.length ≥ MAXARGS - 1 then some (args2, inf2, outf2, 0)
            else plLoop fuel2 after 0 args2 inf2 outf2
      else
        match recordTok pstate ⟨(takeTok (c :: rest)).1⟩ args inf outf with
        | none => none
        | some (args2, inf2, outf2) =>
          if args2.length ≥ MAXARGS - 1 then some (args2, inf2, outf2, 0)
          else plLoop fuel2 ((takeTok (c :: rest)).2.drop 1) 0 args2 inf2 outf2

theorem plLoop_fuel_irrelevant :
    ∀ (n : Nat) (cs : List Char), cs.length ≤ n →
      ∀ (f1 f2 pstate : Nat) (args : List String) (inf outf : Option String),
        cs.length < f1 → cs.length < f2 →
        plLoop f1 cs pstate args inf outf =
          plLoop f2 cs pstate args inf outf := by
  intro n
  induction n with
  | zero =>
    intro cs hlen f1 f2 pstate args inf outf h1 h2
    have hnil : cs = [] := List.length_eq_zero.mp (Nat.le_zero.mp hlen)
    subst hnil
    match f1, f2, h1, h2 with
    | g1 + 1, g2 + 1, _, _ => rfl
  | succ n ih =>
    intro cs hlen f1 f2 pstate args inf outf h1 h2
    match f1, f2, h1, h2 with
    | g1 + 1, g2 + 1, h1, h2 =>
      simp only [plLoop]
      cases hsd : skipDelims cs with
      | nil => rfl
      | cons c rest =>
        have hle : rest.length + 1 ≤ cs.length := by
          have hsk := skipDelims_length cs
          rw [hsd] at hsk
          simpa using hsk
        by_cases hc1 : c = '<'
        · simp only [if_pos hc1]
          by_cases hin : inf.isSome = true
          · simp only [hin, if_true]
          · simp only [hin, if_false]
            exact ih rest (by omega) g1 g2 _ args inf outf (by omega) (by omega)
        · simp only [if_neg hc1]
          by_cases hc2 : c = '>'
          · simp only [if_pos hc2]
            by_cases hout : outf.isSome = true
            · simp only [hout, if_true]
            · simp only [hout, if_false]
              exact ih rest (by omega) g1 g2 _ args inf outf (by omega)
                (by omega)
          · simp only [if_neg hc2]
            by_cases hq : c = Char.ofNat 39 ∨ c = '"'
            · simp only [if_pos hq]
              cases hfc : findClose c rest with
              | none => rfl
              | some p =>
                obtain ⟨tokCs, after⟩ := p
                have hflen : tokCs.length + 1 + after.length = rest.length :=
                  findClose_length hfc
                dsimp only
                cases hrt : recordTok pstate ⟨tokCs⟩ args inf outf with
                | none => rfl
                | some q =>
                  obtain ⟨args2, inf2, outf2⟩ := q
                  dsimp only
                  by_cases hax : args2.length ≥ MAXARGS - 1
                  · simp only [if_pos hax]
                  · simp only [if_neg hax]
                    exact ih after (by omega) g1 g2 0 args2 inf2 outf2
                      (by omega) (by omega)
            · simp only [if_neg hq]
              have hnd := skipDelims_not_delim hsd
              have htk := takeTok_length (c :: rest)
              have hpos := @takeTok_fst_pos c rest hnd
              have hdrop : ((takeTok (c :: rest)).2.drop 1).length ≤
                  (takeTok (c :: rest)).2.length := by
                simp [List.length_drop]
              simp only [List.length_cons] at htk
              cases hrt : recordTok pstate ⟨(takeTok (c :: rest)).1⟩ args
                  inf outf with
              | none => rfl
              | some q =>
                obtain ⟨args2, inf2, outf2⟩ := q
                dsimp only
                by_cases hax : args2.length ≥ MAXARGS - 1
                · simp only [if_pos hax]
                · simp only [if_neg hax]
                  exact ih ((takeTok (c :: rest)).2.drop 1) (by omega) g1 g2 0
                    args2 inf2 outf2 (by omega) (by omega)

/-- Classification of `argv[0]` against the built-in names
(tsh.c lines 571–581). -/
def classifyBuiltin (arg0 : String) : Builtins :=
  if arg0 = "quit" then .BUILTIN_QUIT
  else if arg0 = "jobs" then .BUILTIN_JOBS
  else if arg0 = "bg" then .BUILTIN_BG
  else if arg0 = "fg" then .BUILTIN_FG
  else .BUILTIN_NONE

/-- The code after the scan loop of `parseline` (tsh.c lines 559–587):
a leftover redirection state is the "must provide file name" error; a
blank line returns 1 with `argc = 0` (the C code leaves `tok->builtins`
unset there — the caller `eval` never reads it — modelled as
`BUILTIN_NONE`); otherwise `argv[0]` is classified, and the request is
marked background (return 1, last argument dropped) exactly when the
FIRST character of the final argument is `'&'`
(`*tok->argv[tok->argc-1] == '&'`, line 584). -/
def plFinish (args : List String) (inf outf : Option String) (pstate : Nat) :
    Option (Bool × CmdTokens) :=
  if pstate ≠ 0 then none
  else
    match args with
    | [] => some (true, ⟨0, [], inf, outf, .BUILTIN_NONE⟩)
    | a0 :: _ =>
      let b := classifyBuiltin a0
      let isBg : Bool :=
        match args.getLast? with
        | some t => t.data.head? = some '&'
        | none => false
      if isBg then
        some (true, ⟨args.length - 1, args.dropLast, inf, outf, b⟩)
      else
        some (false, ⟨args.length, args, inf, outf, b⟩)

/-- `parseline` (tsh.c lines 463–588): `none` is the C return value `-1`
(format error); `some (bg, tok)` is the C return value `1`/`0` with the
populated token structure. -/
def parseline (cmdline : String) : Option (Bool × CmdTokens) :=
  match plLoop (cmdline.data.length + 1) cmdline.data 0 [] none none with
  | none => none
  | some (args, inf, outf, pstate) => plFinish args inf outf pstate

/-! ### `sscanf` conversions used by `execbg`/`execfg`
(`sscanf(argv[1], "%d", &pid)` and `sscanf(argv[1], "%c%d", &s, &jid)`,
tsh.c lines 368, 379, 417, 427). -/

/-- `%d` skips leading white-space. -/
def skipWsScan : List Char → List Char
  | [] => []
  | c :: rest =>
    if c = ' ' ∨ c = '\t' ∨ c = '\r' ∨ c = '\n' then skipWsScan rest
    else c :: rest

/-- Leading decimal digits of a character list. -/
def takeDigits : List Char → List Char
  | [] => []
  | c :: rest => if c.isDigit then c :: takeDigits rest else []

/-- Numeric value of a digit string. -/
def digitsVal (ds : List Char) : Nat :=
  ds.foldl (fun a c => a * 10 + (c.toNat - 48)) 0

/-- One `%d` conversion: optional white-space, optional sign, at least one
digit; `none` is a matching failure (the `int` argument is then left
indeterminate, like the C local it would have filled). -/
def scanIntAux (cs : List Char) : Option Int :=
  match skipWsScan cs with
  | '-' :: rest =>
    let ds := takeDigits rest
    if ds = [] then none else some (-(digitsVal ds : Int))
  | '+' :: rest =>
    let ds := takeDigits rest
    if ds = [] then none else some (digitsVal ds)
  | cs2 =>
    let ds := takeDigits cs2
    if ds = [] then none else some (digitsVal ds)

/-- `sscanf(s, "%d", &v)`: `some v` when the return value is 1. -/
def scanD (s : String) : Option Int := scanIntAux s.data

/-- `sscanf(s, "%c%d", &c, &v)`: `%c` consumes the first character
verbatim (no white-space skip), then `%d` runs on the remainder;
`some (c, v)` when the return value is 2. -/
def scanCD (s : String) : Option (Char × Int) :=
  match s.data with
  | [] => none
  | c :: rest => (scanIntAux rest).map (fun v => (c, v))

/-! ### The `bg` and `fg` built-ins (`execbg` tsh.c lines 359–393,
`execfg` tsh.c lines 408–440) -/

/-- `job->state = st` through the pointer returned by `getjobpid`:
update the first slot whose pid matches. -/
def setStateByPid (l : List Job) (pid : Int) (st : JobState) : List Job :=
  match l with
  | [] => []
  | j :: rest =>
    if j.pid = pid then { j with state := st } :: rest
    else j :: setStateByPid rest pid st

/-- `job->state = st` through the pointer returned by `getjobjid`:
update the first slot whose jid matches. -/
def setStateByJid (l : List Job) (jid : Int) (st : JobState) : List Job :=
  match l with
  | [] => []
  | j :: rest =>
    if (j.jid : Int) = jid then { j with state := st } :: rest
    else j :: setStateByJid rest jid st

/-- Result of a built-in `bg`/`fg` call: the C return value, the job
table afterwards, the arguments passed to `kill`/`Kill` (`SIGCONT` in
every case, so only the signed pid argument is recorded — a negative
value targets the whole process group), and the lines printed. -/
structure ExecResult where
  ok : Bool
  st : ShellState
  kills : List Int
  out : List String
deriving DecidableEq, Repr

/-- The `printf("[%d] (%d) %s \n", ...)` line used by `execbg` and by
`eval`'s background acknowledgement (tsh.c lines 304, 372, 386): note
the space between `%s` and `\n`. -/
def jobLine (jid : Nat) (pid : Int) (cmdline : String) : String :=
  "[" ++ toString jid ++ "] (" ++ toString pid ++ ") " ++ cmdline ++ " \n"

/-- `execbg` (tsh.c lines 359–393).  `garbage` is the indeterminate value
left in the local `pid` when the `%d` conversion fails (the C code reads
it regardless).  With `argc == 2`: if `getjobpid` finds the `%d` value,
the job is set to `BG`, the `[jid] (pid) cmdline` line is printed and
`SIGCONT` is sent to `-pid` (the group); otherwise `%c%d` is tried and,
if it yields 2 items whose number part is a tracked jid, that job is set
to `BG`, printed, and `SIGCONT` sent to `-(job->pid)`; in all other
cases the call returns 0 with no effect. -/
def execbg (garbage : Int) (s : ShellState) (argc : Nat) (arg1 : String) :
    ExecResult :=
  if argc = 2 then
    let pid := (scanD arg1).getD garbage
    match getjobpid s.jobs pid with
    | some job =>
      let jobs2 := setStateByPid s.jobs pid .BG
      { ok := true, st := ⟨jobs2, s.nextjid⟩,
        kills := [-pid],
        out := [jobLine (pid2jid jobs2 pid) pid job.cmdline] }
    | none =>
      match scanCD arg1 with
      | none => ⟨false, s, [], []⟩
      | some (_, jid) =>
        match getjobjid s.jobs jid with
        | none => ⟨false, s, [], []⟩
        | some job =>
          let jobs2 := setStateByJid s.jobs jid .BG
          { ok := true, st := ⟨jobs2, s.nextjid⟩,
            kills := [-job.pid],
            out := [jobLine jid.toNat job.pid job.cmdline] }
  else ⟨false, s, [], []⟩

/-- `execfg` (tsh.c lines 408–440).  Identical resolution to `execbg`,
but the job is set to `FG`, nothing is printed, and `SIGCONT` is sent to
the POSITIVE pid (`Kill(pid, SIGCONT)` line 422, `kill(job->pid,
SIGCONT)` line 435) — the process itself, not its process group. -/
def execfg (garbage : Int) (s : ShellState) (argc : Nat) (arg1 : String) :
    ExecResult :=
  if argc = 2 then
    let pid := (scanD arg1).getD garbage
    match getjobpid s.jobs pid with
    | some _ =>
      let jobs2 := setStateByPid s.jobs pid .FG
      { ok := true, st := ⟨jobs2, s.nextjid⟩,
        kills := [pid],
        out := [] }
    | none =>
      match scanCD arg1 with
      | none => ⟨false, s, [], []⟩
      | some (_, jid) =>
        match getjobjid s.jobs jid with
        | none => ⟨false, s, [], []⟩
        | some job =>
          let jobs2 := setStateByJid s.jobs jid .FG
          { ok := true, st := ⟨jobs2, s.nextjid⟩,
            kills := [job.pid],
            out := [] }
  else ⟨false, s, [], []⟩

/-! ### The evaluator (`eval`, tsh.c lines 235–316) -/

/-- What `eval` did with one request, as observable by the parent shell
process: the job table afterwards, the lines printed, the signed pid
arguments passed to `kill`, whether control reached the foreground wait
loop (`while (fgpid(job_list)) Sigsuspend(&prev);`, lines 301–302),
which child pid was forked (none for a built-in), and the C return value
of `addjob` for that child. -/
structure EvalResult where
  st : ShellState
  out : List String
  kills : List Int
  waited : Bool
  spawned : Option Int
  tracked : Bool
deriving DecidableEq, Repr

/-- The parent-side external-command path of `eval`
(tsh.c lines 276–304), parametrised by the pid `fork` returned: the
child is spawned unconditionally, `addjob` registers it as `BG` or `FG`
per the parsed background flag (its return value is ignored by `eval`),
then a foreground request enters the `Sigsuspend` wait loop while a
background request prints `[jid] (pid) cmdline` once instead. -/
def evalExternal (s : ShellState) (pid : Int) (bg : Bool) (cmdline : String) :
    EvalResult :=
  let state : JobState := if bg then .BG else .FG
  let r := addjob s pid state cmdline
  if bg then
    { st := r.2.1, out := r.2.2 ++ [jobLine (pid2jid r.2.1.jobs pid) pid cmdline],
      kills := [], waited := false, spawned := some pid, tracked := r.1 }
  else
    { st := r.2.1, out := r.2.2,
      kills := [], waited := true, spawned := some pid, tracked := r.1 }

/-- A request as dispatched by `eval` via `builtin_command`
(tsh.c lines 275, 320–344): the `bg`/`fg` built-ins carry `argc` and
`argv[1]`; an external command carries the parsed background flag, the
raw command line, and (as a parameter of the model) the forked pid. -/
inductive Req
  | builtinBg (argc : Nat) (arg1 : String)
  | builtinFg (argc : Nat) (arg1 : String)
  | external (bg : Bool) (cmdline : String) (childPid : Int)

/-- `eval` on one request (built-in dispatch tsh.c lines 275, 336–339;
external path lines 276–304).  For a built-in, `builtin_command` returns
nonzero, so `eval` only restores the signal mask and returns — it never
reaches the foreground wait loop (`waited := false`) and forks nothing. -/
def eval (garbage : Int) (s : ShellState) (r : Req) : EvalResult :=
  match r with
  | .builtinBg argc arg1 =>
    let e := execbg garbage s argc arg1
    { st := e.st, out := e.out, kills := e.kills,
      waited := false, spawned := none, tracked := false }
  | .builtinFg argc arg1 =>
    let e := execfg garbage s argc arg1
    { st := e.st, out := e.out, kills := e.kills,
      waited := false, spawned := none, tracked := false }
  | .external bg cmdline childPid => evalExternal s childPid bg cmdline

/-! ### The SIGCHLD handler (`sigchld_handler`, tsh.c lines 602–657) -/

/-- One `waitpid` status, `WNOHANG|WUNTRACED|WCONTINUED`: a reaped child
reports exactly one of exited / killed-by-signal / stopped / continued. -/
inductive WStatus
  | exited (code : Nat)
  | signaled (sig : Nat)
  | stopped (sig : Nat)
  | continued
deriving DecidableEq, Repr

/-- The body of the `while (waitpid(...) > 0)` loop for one reaped child
(tsh.c lines 620–649, with `verbose = 0`): `WIFEXITED` and
`WIFSIGNALED` delete the job (the latter also prints the "terminated by
signal" line), `WIFSTOPPED` prints the "stopped by signal" line and
marks the job `ST`, `WIFCONTINUED` changes nothing. -/
def chldStep (s : ShellState) (pid : Int) (w : WStatus) :
    ShellState × List String :=
  match w with
  | .exited _ => ((deletejob s pid).2, [])
  | .signaled sig =>
    ((deletejob s pid).2,
      ["Job [" ++ toString (pid2jid s.jobs pid) ++ "] (" ++ toString pid ++
        ") terminated by signal " ++ toString sig ++ "\n"])
  | .stopped sig =>
    ((stopjob s pid).2,
      ["Job [" ++ toString (pid2jid s.jobs pid) ++ "] (" ++ toString pid ++
        ") stopped by signal " ++ toString sig ++ "\n"])
  | .continued => (s, [])

/-- `sigchld_handler` (tsh.c lines 602–657): the handler loops on
non-blocking `waitpid` until it returns no further child, processing
every available status change in order.  `events` is that sequence of
`(pid, status)` results. -/
def sigchld_handler (s : ShellState) (events : List (Int × WStatus)) :
    ShellState × List String :=
  match events with
  | [] => (s, [])
  | (pid, w) :: rest =>
    let r := chldStep s pid w
    let r2 := sigchld_handler r.1 rest
    (r2.1, r.2 ++ r2.2)

/-! ### The signal-mask discipline of `eval`'s foreground wait
(tsh.c lines 272, 296–302) -/

/-- The ordered atomic actions of `eval`'s parent path for a foreground
external command, transcribed from tsh.c lines 272–302:
`Sigprocmask(SIG_BLOCK, &mask, &prev)` (line 272), `Fork()` (line 276),
`addjob(...)` (line 296), `Sigprocmask(SIG_SETMASK, &prev, NULL)`
(line 297), then the wait loop's `fgpid(job_list)` check (line 301) and
`Sigsuspend(&prev)` (line 302). -/
inductive EvAct
  | maskBlock
  | forkChild
  | addJobAct
  | maskRestore
  | fgCheck
  | sigSuspendAct
deriving DecidableEq, Repr

/-- The action sequence of the foreground external path of `eval`
(first iteration of the wait loop), in source order. -/
def evalFgActions : List EvAct :=
  [.maskBlock, .forkChild, .addJobAct, .maskRestore, .fgCheck, .sigSuspendAct]

/-- Annotate each action with whether the SIGCHLD-containing mask set in
line 272 is blocked when the action executes: `maskBlock` blocks it,
`maskRestore` restores the pre-eval mask `prev` (under which SIGCHLD is
deliverable in the read loop), every other action leaves it unchanged. -/
def chldBlockedAt : List EvAct → Bool → List (EvAct × Bool)
  | [], _ => []
  | a :: rest, b =>
    let b2 := match a with
      | .maskBlock => true
      | .maskRestore => false
      | _ => b
    (a, b2) :: chldBlockedAt rest b2

/-! ### Derived measures and concrete scenario states -/

/-- Number of jobs in `FG` state — the quantity bounded by the
at-most-one-foreground invariant (tsh.c line 42). -/
def countFG (l : List Job) : Nat :=
  (l.filter (fun j => j.state = .FG)).length

/-- Number of slots holding the given pid. -/
def countPid (l : List Job) (pid : Int) : Nat :=
  (l.filter (fun j => j.pid = pid)).length

/-- Table after evaluating `sleep 100 &` (child forked as pid 105):
one background job, jid 1. -/
def fgDemoState : ShellState := (addjob initState 105 .BG "sleep 100 &").2.1

/-- Reachability trace for the foreground invariant, step 1: the shell
evaluates `prog &`, forking pid 10 (job 1, Background). -/
def c3sA : ShellState := (eval 0 initState (.external true "prog &" 10)).st
/-- Step 2: the shell evaluates `fg 10`; `execfg` sets job 1 to `FG` and
`eval` returns to the read loop without waiting. -/
def c3sB : ShellState := (eval 0 c3sA (.builtinFg 2 "10")).st
/-- Step 3: the shell evaluates `prog2` (foreground), forking pid 11;
`addjob` registers it in `FG` state while job 1 is still in `FG`. -/
def c3sC : ShellState := (eval 0 c3sB (.external false "prog2" 11)).st

/-- Shorthand for traces: add a background job with the given pid. -/
def addDemo (s : ShellState) (p : Int) : ShellState := (addjob s p .BG "").2.1
/-- Shorthand for traces: delete the job with the given pid. -/
def delDemo (s : ShellState) (p : Int) : ShellState := (deletejob s p).2

/-- Job-id trace: sixteen adds (pids 101..116) fill the table with
jids 1..16; assigning jid 16 wraps `nextjid` to 1. -/
def c4Full : ShellState :=
  (List.range 16).foldl (fun s i => addDemo s (101 + i)) initState
/-- Job-id trace: jobs with pids 101 and 102 removed; `deletejob` sets
`nextjid = maxjid + 1 = 17`. -/
def c4Deleted : ShellState := delDemo (delDemo c4Full 101) 102
/-- Job-id trace: the next add (pid 201) is assigned jid 17 and the
counter wraps to 1 (`nextjid > MAXJOBS`). -/
def c4Add1 : ShellState := addDemo c4Deleted 201
/-- Job-id trace: the immediately following add (pid 202, no removal in
between) is assigned jid 1. -/
def c4Add2 : ShellState := addDemo c4Add1 202

/-- Resolution-demo table: five jobs (pids 101..105, jids 1..5), the
job with jid 5 stopped. -/
def c9Table : ShellState :=
  (stopjob ((List.range 5).foldl (fun s i => addDemo s (101 + i)) initState) 105).2

/-- A full table (pids 201..216) for the capacity claims. -/
def c6Full : ShellState :=
  (List.range 16).foldl (fun s i => addDemo s (201 + i)) initState

/-! ### Lemmas about the job-table operations -/

theorem addjobAux_nextjid {pid : Int} {st : JobState} {cmd : String} :
    ∀ {l l2 : List Job} {n n2 : Nat},
      addjobAux pid st cmd l n = some (l2, n2) →
      n2 = if n + 1 > MAXJOBS then 1 else n + 1 := by
  intro l
  induction l with
  | nil => intro l2 n n2 h; simp [addjobAux] at h
  | cons j rest ih =>
    intro l2 n n2 h
    simp only [addjobAux] at h
    split at h
    · simp at h
      exact h.2.symm
    · match h2 : addjobAux pid st cmd rest n with
      | some (r2, m2) =>
        rw [h2] at h
        simp at h
        obtain ⟨-, h4⟩ := h
        subst h4
        exact ih h2
      | none => rw [h2] at h; simp at h

theorem addjobAux_find {pid : Int} {st : JobState} {cmd : String} :
    ∀ {l l2 : List Job} {n n2 : Nat},
      addjobAux pid st cmd l n = some (l2, n2) →
      (∀ j ∈ l, j.pid ≠ pid) →
      l2.find? (fun j => j.pid = pid) = some ⟨pid, n, st, cmd⟩ := by
  intro l
  induction l with
  | nil => intro l2 n n2 h hfr; simp [addjobAux] at h
  | cons j rest ih =>
    intro l2 n n2 h hfr
    simp only [addjobAux] at h
    split at h
    · simp at h
      obtain ⟨h1, -⟩ := h
      subst h1
      simp [List.find?]
    · match h2 : addjobAux pid st cmd rest n with
      | some (r2, m2) =>
        rw [h2] at h
        simp at h
        obtain ⟨h3, -⟩ := h
        subst h3
        have hj : j.pid ≠ pid := hfr j (by simp)
        have hrest : ∀ x ∈ rest, x.pid ≠ pid := fun x hx => hfr x (by simp [hx])
        simp only [List.find?]
        rw [show (decide (j.pid = pid)) = false by simpa using hj]
        exact ih h2 hrest
      | none => rw [h2] at h; simp at h

theorem addjobAux_none_of_full {pid : Int} {st : JobState} {cmd : String} :
    ∀ {l : List Job} {n : Nat}, (∀ j ∈ l, j.pid ≠ 0) →
      addjobAux pid st cmd l n = none := by
  intro l
  induction l with
  | nil => intro n h; simp [addjobAux]
  | cons j rest ih =>
    intro n h
    have hj : j.pid ≠ 0 := h j (by simp)
    simp only [addjobAux, if_neg hj]
    rw [ih (fun x hx => h x (by simp [hx]))]

theorem addjobAux_isSome_of_free {pid : Int} {st : JobState} {cmd : String} :
    ∀ {l : List Job} {n : Nat}, (∃ j ∈ l, j.pid = 0) →
      (addjobAux pid st cmd l n).isSome := by
  intro l
  induction l with
  | nil => intro n h; simp at h
  | cons j rest ih =>
    intro n h
    simp only [addjobAux]
    split
    · simp
    · rename_i hj
      have hrest : ∃ x ∈ rest, x.pid = 0 := by
        obtain ⟨x, hx, hx0⟩ := h
        rcases List.mem_cons.mp hx with hx2 | hx2
        · exact absurd (hx2 ▸ hx0) hj
        · exact ⟨x, hx2, hx0⟩
      match h2 : addjobAux pid st cmd rest n with
      | some (r2, m2) => simp
      | none =>
        have := @ih n hrest
        rw [h2] at this
        simp at this

theorem maxjid_foldl_const :
    ∀ {l : List Job} (a : Nat), (∀ j ∈ l, j.jid = 0) →
      l.foldl (fun m j => max m j.jid) a = a := by
  intro l
  induction l with
  | nil => intro a _; simp
  | cons j rest ih =>
    intro a h
    have hj : j.jid = 0 := h j (by simp)
    simp only [List.foldl_cons, hj, Nat.max_zero]
    exact ih a fun x hx => h x (List.mem_cons_of_mem _ hx)

theorem maxjid_eq_zero {l : List Job} (h : ∀ j ∈ l, j.jid = 0) :
    maxjid l = 0 :=
  maxjid_foldl_const 0 h

theorem find?_pid_eq_none {l : List Job} {pid : Int}
    (h : ∀ x ∈ l, x.pid ≠ pid) : l.find? (fun j => j.pid = pid) = none := by
  rw [List.find?_eq_none]
  intro x hx
  simpa using h x hx

theorem countPid_cons_pos {x : Job} {rest : List Job} {pid : Int}
    (hx : x.pid = pid) :
    countPid (x :: rest) pid = countPid rest pid + 1 := by
  simp only [countPid, List.filter_cons, hx]
  simp

theorem countPid_cons_neg {x : Job} {rest : List Job} {pid : Int}
    (hx : x.pid ≠ pid) :
    countPid (x :: rest) pid = countPid rest pid := by
  simp only [countPid, List.filter_cons]
  rw [show (decide (x.pid = pid)) = false by simpa using hx]
  simp

theorem countPid_zero_find? {l : List Job} {pid : Int}
    (h : countPid l pid = 0) : l.find? (fun j => j.pid = pid) = none := by
  apply find?_pid_eq_none
  intro x hx hpx
  have hmem : x ∈ l.filter (fun j => j.pid = pid) := by
    rw [List.mem_filter]
    exact ⟨hx, by simpa using hpx⟩
  have : l.filter (fun j => j.pid = pid) = [] :=
    List.length_eq_zero.mp h
  rw [this] at hmem
  simp at hmem

theorem deletejobAux_of_find {pid : Int} (hpid : 1 ≤ pid) :
    ∀ {l : List Job} {j : Job},
      l.find? (fun x => x.pid = pid) = some j →
      countPid l pid ≤ 1 →
      ∃ l2, deletejobAux pid l = some l2 ∧
        l2.find? (fun x => x.pid = pid) = none := by
  intro l
  induction l with
  | nil => intro j h hc; simp at h
  | cons x rest ih =>
    intro j h hc
    by_cases hx : x.pid = pid
    · refine ⟨clearedJob :: rest, by simp [deletejobAux, hx], ?_⟩
      have hc0 : countPid rest pid = 0 := by
        rw [countPid_cons_pos hx] at hc
        omega
      have hcl : (decide (clearedJob.pid = pid)) = false := by
        simp only [clearedJob, decide_eq_false_iff_not]
        intro h0
        omega
      simp only [List.find?, hcl]
      exact countPid_zero_find? hc0
    · have hrest : rest.find? (fun y => y.pid = pid) = some j := by
        rwa [List.find?_cons_of_neg _ (by simpa using hx)] at h
      have hcrest : countPid rest pid ≤ 1 := by
        rwa [countPid_cons_neg hx] at hc
      obtain ⟨l2, h1, h2⟩ := ih hrest hcrest
      refine ⟨x :: l2, ?_, ?_⟩
      · simp only [deletejobAux, if_neg hx, h1]
        rfl
      · rw [List.find?_cons_of_neg _ (by simpa using hx)]
        exact h2

theorem stopjobAux_of_find {pid : Int} :
    ∀ {l : List Job} {j : Job},
      l.find? (fun x => x.pid = pid) = some j →
      ∃ l2, stopjobAux pid l = some l2 ∧
        l2.find? (fun x => x.pid = pid) = some { j with state := .ST } := by
  intro l
  induction l with
  | nil => intro j h; simp at h
  | cons x rest ih =>
    intro j h
    by_cases hx : x.pid = pid
    · have hxj : x = j := by
        rw [List.find?_cons_of_pos _ (by simpa using hx)] at h
        simpa using h
      subst hxj
      refine ⟨{ x with state := .ST } :: rest, by simp [stopjobAux, hx], ?_⟩
      rw [List.find?_cons_of_pos _ (by simpa using hx)]
    · have hrest : rest.find? (fun y => y.pid = pid) = some j := by
        rwa [List.find?_cons_of_neg _ (by simpa using hx)] at h
      obtain ⟨l2, h1, h2⟩ := ih hrest
      refine ⟨x :: l2, ?_, ?_⟩
      · simp only [stopjobAux, if_neg hx, h1]
        rfl
      · rw [List.find?_cons_of_neg _ (by simpa using hx)]
        exact h2

theorem sigchld_handler_nil (s : ShellState) :
    sigchld_handler s [] = (s, []) := rfl

theorem sigchld_handler_append (s : ShellState)
    (e1 e2 : List (Int × WStatus)) :
    sigchld_handler s (e1 ++ e2) =
      ((sigchld_handler (sigchld_handler s e1).1 e2).1,
        (sigchld_handler s e1).2 ++
          (sigchld_handler (sigchld_handler s e1).1 e2).2) := by
  induction e1 generalizing s with
  | nil => simp [sigchld_handler]
  | cons ev rest ih =>
    obtain ⟨pid, w⟩ := ev
    simp only [List.cons_append, sigchld_handler, List.append_eq]
    rw [ih]
    simp [List.append_assoc]

theorem addjob_out_cases (s : ShellState) (pid : Int) (st : JobState)
    (cmd : String) :
    (addjob s pid st cmd).2.2 = [] ∨
      (addjob s pid st cmd).2.2 = ["Tried to create too many jobs"] := by
  unfold addjob
  split
  · simp
  · split <;> simp

theorem toomany_ne_jobLine (jid : Nat) (pid : Int) (cmd : String) :
    "Tried to create too many jobs" ≠ jobLine jid pid cmd := by
  intro h
  have hd := congrArg (fun s => s.data.head?) h
  simp only [jobLine, String.data_append] at hd
  simp at hd

/-! ### Claim theorems -/

/-- C1: the claim says a resolved `fg` sets the job to Foreground, sends
the continue signal to the job's entire process group (negative-pid
send), and suspends until no Foreground job remains.  The code
contradicts its own documentation (the eval comment "If the job is
running in the foreground, wait for it to terminate", tsh.c lines
229–230, and the invariant comment "At most 1 job can be in the FG
state", line 42): with a tracked background job pid 105 and the command
`fg 105`, `execfg` sets the job's state to `FG` but passes the POSITIVE
pid 105 to `kill` (tsh.c line 422, reaching only the process, not its
group), and `eval` returns down the builtin branch (tsh.c line 307)
with `waited = false`, never reaching the `Sigsuspend` loop, although a
job is still in Foreground state (`fgpid ≠ 0`). -/
theorem c1_fg_sends_positive_kill_and_skips_wait :
    (eval 0 fgDemoState (.builtinFg 2 "105")).kills = [105] ∧
    (eval 0 fgDemoState (.builtinFg 2 "105")).waited = false ∧
    (getjobpid (eval 0 fgDemoState (.builtinFg 2 "105")).st.jobs 105).map
        Job.state = some .FG ∧
    fgpid (eval 0 fgDemoState (.builtinFg 2 "105")).st.jobs ≠ 0 := by
  decide

/-- C2: the claim says the foreground check and the suspension are atomic
with respect to the blocked mask — the mask is released only while
suspended.  In the code, `Sigprocmask(SIG_SETMASK, &prev, NULL)`
(tsh.c line 297) runs BEFORE the wait loop, so the `fgpid` check
(line 301) and the `Sigsuspend` call (line 302) both execute with the
SIGCHLD-containing mask already released: in the annotated action trace
of the foreground path, the mask-restore precedes the check, and the
check runs unblocked — the classic lost-wakeup window the claim says is
closed. -/
theorem c2_mask_released_before_foreground_check :
    chldBlockedAt evalFgActions false =
      [(.maskBlock, true), (.forkChild, true), (.addJobAct, true),
        (.maskRestore, false), (.fgCheck, false), (.sigSuspendAct, false)] ∧
    (EvAct.fgCheck, false) ∈ chldBlockedAt evalFgActions false := by
  decide

/-- C3: the claim says every reachable state has at most one Foreground
job.  The three-command trace `prog &` (pid 10), `fg 10`, `prog2`
(pid 11) — each step an `eval` of one command line — reaches a state
whose table holds TWO jobs in `FG` state, because the `fg` builtin
returns without waiting (see C1) and the next external foreground
command is then registered in `FG` while job 1 is still `FG`.  This
contradicts the code's own comment "At most 1 job can be in the FG
state" (tsh.c line 42). -/
theorem c3_two_foreground_jobs_reachable :
    countFG c3sC.jobs = 2 := by
  decide

/-- C4 counterexample: job ids assigned by successive adds are NOT
always strictly increasing until a removal.  In the trace
`c4Full → c4Deleted → c4Add1 → c4Add2` (sixteen adds, two deletions,
then two consecutive adds with no removal between them), the add of
pid 201 is assigned jid 17, `nextjid` wraps to 1 because `17 + 1 >
MAXJOBS` (tsh.c lines 776–777), and the IMMEDIATELY following add of
pid 202 is assigned jid 1 < 17. -/
theorem c4_jid_wrap_counterexample :
    pid2jid c4Add1.jobs 201 = 17 ∧
    pid2jid c4Add2.jobs 202 = 1 ∧
    c4Add1.nextjid = 1 := by
  decide

/-- C5 counterexample: the tokenizer does not require the final token to
be exactly `&`.  For the input line `echo &x` the scan loop produces
the tokens `["echo", "&x"]`; the final token `&x` is not `&`, yet
`parseline` marks the request background and drops the token, because
line 584 of tsh.c tests only the token's first character. -/
theorem c5_amp_token_counterexample :
    plLoop ("echo &x".data.length + 1) "echo &x".data 0 [] none none =
      some (["echo", "&x"], none, none, 0) ∧
    parseline "echo &x" =
      some (true, ⟨1, ["echo"], none, none, .BUILTIN_NONE⟩) ∧
    "&x" ≠ "&" := by
  decide

/-- C8 counterexample: the background acknowledgement is not the command
line immediately followed by the line terminator.  Evaluating
`sleep 5 &` (forked pid 10) on the empty table prints
`"[1] (10) sleep 5 & \n"` — `printf("[%d] (%d) %s \n", ...)`,
tsh.c line 304 — which has a space between the command line and the
newline, so it differs from the claimed `[1] (10) sleep 5 &` + `\n`. -/
theorem c8_ack_format_counterexample :
    (eval 0 initState (.external true "sleep 5 &" 10)).out =
      ["[1] (10) sleep 5 & \n"] ∧
    "[1] (10) sleep 5 & \n" ≠ "[1] (10) sleep 5 &" ++ "\n" := by
  decide

/-- C9 counterexample: a `bg` argument that is a well-formed pid not
tracked by any job is NOT always a no-op.  On a table with jobs
jid 1..5 (pids 101..105, job 5 stopped), `bg 15` finds no job with
pid 15, but the fallback `sscanf("%c%d")` (tsh.c line 379) accepts the
digit `1` as the "marker" character and parses jid 5, so the call
succeeds, changes job 5's state from `ST` to `BG` and sends `SIGCONT`
to process group −105 — a state change and a signal for an
unresolvable target. -/
theorem c9_resolution_counterexample :
    getjobpid c9Table.jobs 15 = none ∧
    (getjobpid c9Table.jobs 105).map Job.state = some .ST ∧
    (execbg 0 c9Table 2 "15").ok = true ∧
    (execbg 0 c9Table 2 "15").kills = [-105] ∧
    (getjobpid (execbg 0 c9Table 2 "15").st.jobs 105).map Job.state =
      some .BG := by
  decide

/-- C10: non-positive pids (`pid < 1`) are rejected benignly by the
job-table operations: `addjob` and `deletejob` return failure and leave
the whole state (table and `nextjid`) unchanged, `getjobpid` returns no
job, and `pid2jid` returns 0; `pid2jid` also returns 0 for any positive
pid not present in the table (tsh.c lines 768, 798, 845, 872, 878). -/
theorem c10_nonpositive_pid_ops (s : ShellState) (pid : Int)
    (st : JobState) (cmd : String) :
    (pid < 1 →
      addjob s pid st cmd = (false, s, []) ∧
      deletejob s pid = (false, s) ∧
      getjobpid s.jobs pid = none ∧
      pid2jid s.jobs pid = 0) ∧
    (1 ≤ pid → (∀ j ∈ s.jobs, j.pid ≠ pid) → pid2jid s.jobs pid = 0) := by
  constructor
  · intro hp
    refine ⟨?_, ?_, ?_, ?_⟩ <;>
      simp [addjob, deletejob, getjobpid, pid2jid, hp]
  · intro hp hab
    unfold pid2jid
    rw [if_neg (by omega), find?_pid_eq_none hab]

/-- C10 witness: the operations evaluated at pid −3 on the initial
table, and `pid2jid` at the absent positive pid 7. -/
theorem c10_nonpositive_pid_ops_witness :
    addjob initState (-3) .BG "x" = (false, initState, []) ∧
    pid2jid fgDemoState.jobs 7 = 0 := by
  constructor
  · exact ((c10_nonpositive_pid_ops initState (-3) .BG "x").1 (by decide)).1
  · exact (c10_nonpositive_pid_ops fgDemoState 7 .BG "x").2 (by decide)
      (by decide)

/-- C9 amended: `execbg` and `execfg` return 0 with no table change, no
output and no signal exactly on the arguments the code fails to
resolve: `argc ≠ 2`, or the `%d` value (or, when the `%d` conversion
fails, the indeterminate local value it leaves behind) matches no
tracked pid AND the `%c%d` conversion fails or its numeric part matches
no tracked jid.  Unlike the claim's reading, the fallback accepts ANY
first character as the job-id marker (tsh.c lines 379, 427), so a
well-formed numeric argument with an unknown pid can still resolve —
see the counterexample. -/
theorem c9_amended_unresolvable_noop (garbage : Int) (s : ShellState)
    (argc : Nat) (arg1 : String)
    (h : argc ≠ 2 ∨
      (getjobpid s.jobs ((scanD arg1).getD garbage) = none ∧
        (∀ c jid, scanCD arg1 = some (c, jid) →
          getjobjid s.jobs jid = none))) :
    execbg garbage s argc arg1 = ⟨false, s, [], []⟩ ∧
    execfg garbage s argc arg1 = ⟨false, s, [], []⟩ := by
  by_cases hargc : argc = 2
  · rcases h with h | ⟨hp, hj⟩
    · exact absurd hargc h
    · subst hargc
      constructor
      · unfold execbg
        rw [if_pos rfl]
        rcases h2 : scanCD arg1 with - | ⟨c, jid⟩
        · simp only [hp, h2]
        · simp only [hp, h2, hj c jid h2]
      · unfold execfg
        rw [if_pos rfl]
        rcases h2 : scanCD arg1 with - | ⟨c, jid⟩
        · simp only [hp, h2]
        · simp only [hp, h2, hj c jid h2]
  · constructor
    · unfold execbg; rw [if_neg hargc]
    · unfold execfg; rw [if_neg hargc]

/-- C9 witness: the amended no-op law applied to `bg`/`fg 999` on the
five-job table — pid 999 is untracked and the fallback parses jid 99,
which is also untracked. -/
theorem c9_amended_unresolvable_noop_witness :
    execbg 0 c9Table 2 "999" = ⟨false, c9Table, [], []⟩ ∧
    execfg 0 c9Table 2 "999" = ⟨false, c9Table, [], []⟩ :=
  c9_amended_unresolvable_noop 0 c9Table 2 "999"
    (Or.inr ⟨by decide, by
      intro c jid h
      rw [show scanCD "999" = some (Prod.mk (Char.ofNat 57) 99) from by decide]
        at h
      simp at h
      obtain ⟨-, h2⟩ := h
      subst h2
      decide⟩)

/-- C8 amended: for every background external spawn the evaluator does
not wait, and prints exactly one acknowledgement line — but its format
is `[jid] (pid) cmdline` followed by a SPACE and then the newline
(the `"[%d] (%d) %s \n"` format string of tsh.c line 304), not the
command line immediately followed by the line terminator. -/
theorem c8_amended_background_ack (s : ShellState) (pid : Int)
    (cmd : String) :
    (evalExternal s pid true cmd).waited = false ∧
    (evalExternal s pid true cmd).out.count
      (jobLine (pid2jid (evalExternal s pid true cmd).st.jobs pid) pid cmd)
      = 1 ∧
    jobLine (pid2jid (evalExternal s pid true cmd).st.jobs pid) pid cmd =
      "[" ++ toString (pid2jid (evalExternal s pid true cmd).st.jobs pid) ++
        "] (" ++ toString pid ++ ") " ++ cmd ++ " \n" := by
  have hst : (evalExternal s pid true cmd).st = (addjob s pid .BG cmd).2.1 := by
    simp [evalExternal]
  have hout : (evalExternal s pid true cmd).out =
      (addjob s pid .BG cmd).2.2 ++
        [jobLine (pid2jid (addjob s pid .BG cmd).2.1.jobs pid) pid cmd] := by
    simp [evalExternal]
  refine ⟨by simp [evalExternal], ?_, by rw [jobLine]⟩
  rw [hst, hout, List.count_append]
  have hne := toomany_ne_jobLine
    (pid2jid (addjob s pid .BG cmd).2.1.jobs pid) pid cmd
  rcases addjob_out_cases s pid .BG cmd with hc | hc <;> rw [hc] <;>
    simp [List.count_cons, hne]

/-- C6: with a positive pid, `addjob` on a full table (no free slot)
returns failure, leaves the whole state untouched, and reports "Tried
to create too many jobs" (tsh.c lines 788–789); on a table with a free
slot it returns success and inserts the job with jid `nextjid`.  The
child is forked before `addjob` runs and `eval` ignores `addjob`'s
return value (tsh.c line 296), so the spawn happens regardless and a
full table leaves the child running untracked; no path of `addjob`
terminates the shell. -/
theorem c6_addjob_capacity (s : ShellState) (pid : Int) (st : JobState)
    (cmd : String) (bg : Bool) :
    (1 ≤ pid → (∀ j ∈ s.jobs, j.pid ≠ 0) →
      addjob s pid st cmd = (false, s, ["Tried to create too many jobs"])) ∧
    (1 ≤ pid → (∃ j ∈ s.jobs, j.pid = 0) → (∀ j ∈ s.jobs, j.pid ≠ pid) →
      (addjob s pid st cmd).1 = true ∧
      getjobpid (addjob s pid st cmd).2.1.jobs pid =
        some ⟨pid, s.nextjid, st, cmd⟩) ∧
    ((evalExternal s pid bg cmd).spawned = some pid) ∧
    (1 ≤ pid → (∀ j ∈ s.jobs, j.pid ≠ 0) →
      (evalExternal s pid bg cmd).tracked = false ∧
      (evalExternal s pid bg cmd).st = s ∧
      "Tried to create too many jobs" ∈ (evalExternal s pid bg cmd).out) := by
  have hfull : ∀ (st2 : JobState), 1 ≤ pid → (∀ j ∈ s.jobs, j.pid ≠ 0) →
      addjob s pid st2 cmd = (false, s, ["Tried to create too many jobs"]) := by
    intro st2 hp hf
    unfold addjob
    rw [if_neg (by omega), addjobAux_none_of_full hf]
  refine ⟨hfull st, ?_, ?_, ?_⟩
  · intro hp hfree hfresh
    match h2 : addjobAux pid st cmd s.jobs s.nextjid with
    | none =>
      have := @addjobAux_isSome_of_free pid st cmd s.jobs s.nextjid hfree
      rw [h2] at this
      simp at this
    | some (jobs2, n2) =>
      have hadd : addjob s pid st cmd = (true, ⟨jobs2, n2⟩, []) := by
        unfold addjob
        rw [if_neg (by omega), h2]
      rw [hadd]
      refine ⟨rfl, ?_⟩
      unfold getjobpid
      rw [if_neg (by omega)]
      exact addjobAux_find h2 hfresh
  · cases bg <;> simp [evalExternal]
  · intro hp hf
    cases bg
    · have h1 := hfull .FG hp hf
      simp [evalExternal, h1]
    · have h1 := hfull .BG hp hf
      simp [evalExternal, h1]

/-- C6 witness: the capacity law evaluated on the full sixteen-job table
(pid 999) and the insertion law on the empty initial table. -/
theorem c6_addjob_capacity_witness :
    addjob c6Full 999 .BG "x" =
      (false, c6Full, ["Tried to create too many jobs"]) ∧
    getjobpid (addjob initState 999 .BG "x").2.1.jobs 999 =
      some ⟨999, 1, .BG, "x"⟩ ∧
    (evalExternal c6Full 999 true "x").tracked = false := by
  refine ⟨?_, ?_, ?_⟩
  · exact (c6_addjob_capacity c6Full 999 .BG "x" true).1 (by decide) (by decide)
  · exact ((c6_addjob_capacity initState 999 .BG "x" true).2.1 (by decide)
      (by decide) (by decide)).2
  · exact ((c6_addjob_capacity c6Full 999 .BG "x" true).2.2.2 (by decide)
      (by decide)).1

/-- C4 amended: job ids assigned by successive adds are strictly
increasing until a removal occurs OR the id counter exceeds `MAXJOBS`
(16), at which point the counter wraps to 1 (tsh.c lines 776–777, see
the counterexample); after any successful removal, the next job id to
be assigned equals the maximum job id remaining in the table plus 1, or
1 if the table is empty.  A successful add assigns jid `nextjid` to the
new job and advances the counter; a successful delete recomputes the
counter as `maxjid + 1`, which is 1 on a table of cleared slots. -/
theorem c4_amended_jid_allocation :
    (∀ (s : ShellState) (pid : Int) (st : JobState) (cmd : String)
        (s2 : ShellState) (out : List String),
      addjob s pid st cmd = (true, s2, out) →
      (s2.nextjid = if s.nextjid + 1 > MAXJOBS then 1 else s.nextjid + 1) ∧
      (s.nextjid < MAXJOBS → s.nextjid < s2.nextjid) ∧
      ((∀ j ∈ s.jobs, j.pid ≠ pid) →
        getjobpid s2.jobs pid = some ⟨pid, s.nextjid, st, cmd⟩)) ∧
    (∀ (s : ShellState) (pid : Int) (s2 : ShellState),
      deletejob s pid = (true, s2) →
      s2.nextjid = maxjid s2.jobs + 1 ∧
      ((∀ j ∈ s2.jobs, j.pid = 0 → j.jid = 0) →
        (∀ j ∈ s2.jobs, j.pid = 0) → s2.nextjid = 1)) := by
  constructor
  · intro s pid st cmd s2 out h
    unfold addjob at h
    split at h
    · simp at h
    · rename_i hpid
      rcases h2 : addjobAux pid st cmd s.jobs s.nextjid with - | ⟨jobs2, n2⟩
      · rw [h2] at h
        simp at h
      · rw [h2] at h
        simp only [Prod.mk.injEq] at h
        obtain ⟨-, h4, -⟩ := h
        subst h4
        have hn := addjobAux_nextjid h2
        refine ⟨hn, ?_, ?_⟩
        · intro hlt
          have hwrap : ¬ (s.nextjid + 1 > MAXJOBS) := by omega
          show s.nextjid < n2
          rw [hn, if_neg hwrap]
          exact Nat.lt_succ_self _
        · intro hfresh
          unfold getjobpid
          rw [if_neg (by omega)]
          exact addjobAux_find h2 hfresh
  · intro s pid s2 h
    unfold deletejob at h
    split at h
    · simp at h
    · rcases h2 : deletejobAux pid s.jobs with - | jobs2
      · rw [h2] at h
        simp at h
      · rw [h2] at h
        simp only [Prod.mk.injEq] at h
        obtain ⟨-, h4⟩ := h
        subst h4
        refine ⟨rfl, ?_⟩
        intro hinv hemp
        have hz : ∀ j ∈ jobs2, j.jid = 0 := fun j hj => hinv j hj (hemp j hj)
        simp [maxjid_eq_zero hz]

/-- C4 witness: the amended allocation law applied to an add on the
initial table (pid 7 receives jid `nextjid = 1`) and to the deletion of
the only job of `fgDemoState` (the emptied table resets the counter
to 1). -/
theorem c4_amended_jid_allocation_witness :
    getjobpid (addjob initState 7 .BG "cmd").2.1.jobs 7 =
      some ⟨7, 1, .BG, "cmd"⟩ ∧
    (deletejob fgDemoState 105).2.nextjid = 1 := by
  constructor
  · exact (c4_amended_jid_allocation.1 initState 7 .BG "cmd"
      (addjob initState 7 .BG "cmd").2.1 (addjob initState 7 .BG "cmd").2.2
      (by decide)).2.2 (by decide)
  · exact (c4_amended_jid_allocation.2 fgDemoState 105
      (deletejob fgDemoState 105).2 (by decide)).2 (by decide) (by decide)

/-- C7: the child-status handler reaps every available status change in
order until none remain (the empty event list is a fixed point, and an
event list splits into sequential processing of its parts), and for
each reaped child with at most one table entry: exited or
killed-by-signal removes its job from the table, stopped-by-signal sets
its job's state to `ST` preserving the other fields, and continued
leaves the state and output untouched (tsh.c lines 618–650). -/
theorem c7_sigchld_reaping :
    (∀ s : ShellState, sigchld_handler s [] = (s, [])) ∧
    (∀ (s : ShellState) (e1 e2 : List (Int × WStatus)),
      sigchld_handler s (e1 ++ e2) =
        ((sigchld_handler (sigchld_handler s e1).1 e2).1,
          (sigchld_handler s e1).2 ++
            (sigchld_handler (sigchld_handler s e1).1 e2).2)) ∧
    (∀ (s : ShellState) (pid : Int) (j : Job) (w : WStatus),
      getjobpid s.jobs pid = some j → countPid s.jobs pid ≤ 1 →
      (∀ c, w = .exited c →
        getjobpid (chldStep s pid w).1.jobs pid = none) ∧
      (∀ g, w = .signaled g →
        getjobpid (chldStep s pid w).1.jobs pid = none) ∧
      (∀ g, w = .stopped g →
        getjobpid (chldStep s pid w).1.jobs pid =
          some { j with state := .ST }) ∧
      (w = .continued → chldStep s pid w = (s, []))) := by
  refine ⟨sigchld_handler_nil, sigchld_handler_append, ?_⟩
  intro s pid j w hfind hcount
  have hpid : 1 ≤ pid := by
    unfold getjobpid at hfind
    by_contra hlt
    rw [if_pos (by omega)] at hfind
    simp at hfind
  have hfind2 : s.jobs.find? (fun x => x.pid = pid) = some j := by
    unfold getjobpid at hfind
    rwa [if_neg (by omega)] at hfind
  have hdel : getjobpid (deletejob s pid).2.jobs pid = none := by
    obtain ⟨l2, h1, h2⟩ := deletejobAux_of_find hpid hfind2 hcount
    unfold deletejob
    rw [if_neg (by omega), h1]
    unfold getjobpid
    rw [if_neg (by omega)]
    exact h2
  have hstop : getjobpid (stopjob s pid).2.jobs pid =
      some { j with state := .ST } := by
    obtain ⟨l2, h1, h2⟩ := stopjobAux_of_find hfind2
    unfold stopjob
    rw [if_neg (by omega), h1]
    unfold getjobpid
    rw [if_neg (by omega)]
    exact h2
  refine ⟨?_, ?_, ?_, ?_⟩
  · intro c hw; subst hw; exact hdel
  · intro g hw; subst hw; exact hdel
  · intro g hw; subst hw; exact hstop
  · intro hw; subst hw; rfl

/-- C7 witness: the reaping laws applied on the five-job table — pid 101
exits (its job disappears), pid 102 is stopped (its job turns `ST`),
pid 103 is continued (nothing changes); the sequencing law applied to a
two-event split. -/
theorem c7_sigchld_reaping_witness :
    getjobpid (chldStep c9Table 101 (.exited 0)).1.jobs 101 = none ∧
    getjobpid (chldStep c9Table 102 (.stopped 20)).1.jobs 102 =
      some ⟨102, 2, .ST, ""⟩ ∧
    chldStep c9Table 103 .continued = (c9Table, []) ∧
    sigchld_handler c9Table [(101, .exited 0), (102, .stopped 20)] =
      ((sigchld_handler (sigchld_handler c9Table [(101, .exited 0)]).1
          [(102, .stopped 20)]).1,
        (sigchld_handler c9Table [(101, .exited 0)]).2 ++
          (sigchld_handler (sigchld_handler c9Table [(101, .exited 0)]).1
            [(102, .stopped 20)]).2) := by
  refine ⟨?_, ?_, ?_, ?_⟩
  · exact (c7_sigchld_reaping.2.2 c9Table 101 ⟨101, 1, .BG, ""⟩ (.exited 0)
      (by decide) (by decide)).1 0 rfl
  · exact (c7_sigchld_reaping.2.2 c9Table 102 ⟨102, 2, .BG, ""⟩ (.stopped 20)
      (by decide) (by decide)).2.2.1 20 rfl
  · exact (c7_sigchld_reaping.2.2 c9Table 103 ⟨103, 3, .BG, ""⟩ .continued
      (by decide) (by decide)).2.2.2 rfl
  · exact c7_sigchld_reaping.2.1 c9Table [(101, .exited 0)] [(102, .stopped 20)]

/-- C5 amended: for every parsed line with at least one argument, the
request is marked background — and then the whole final token is
dropped — if and only if the final argument token's FIRST character is
`&` (tsh.c line 584 tests `*tok->argv[tok->argc-1] == '&'`); a final
token that merely begins with `&` is therefore also treated as the
background marker, not kept as an argument (see the counterexample).
Otherwise the argument list is kept unchanged, and `argc` always equals
the length of the resulting argument list. -/
theorem c5_amended_background_marker (args : List String)
    (inf outf : Option String) (bg : Bool) (tok : CmdTokens)
    (hne : args ≠ [])
    (h : plFinish args inf outf 0 = some (bg, tok)) :
    (bg = true ↔ ∃ t, args.getLast? = some t ∧ t.data.head? = some '&') ∧
    tok.argv = (if bg = true then args.dropLast else args) ∧
    tok.argc = tok.argv.length := by
  match args, hne with
  | a0 :: rest, _ =>
    have hcons : (a0 :: rest) ≠ ([] : List String) := by simp
    have hgl : (a0 :: rest).getLast? = some ((a0 :: rest).getLast hcons) :=
      List.getLast?_eq_getLast _ hcons
    by_cases hamp : ((a0 :: rest).getLast hcons).data.head? = some '&'
    · have hfin : plFinish (a0 :: rest) inf outf 0 =
          some (true, ⟨(a0 :: rest).length - 1, (a0 :: rest).dropLast,
            inf, outf, classifyBuiltin a0⟩) := by
        simp only [plFinish, hgl]
        simp [hamp]
      rw [hfin] at h
      simp only [Option.some.injEq, Prod.mk.injEq] at h
      obtain ⟨hbg, htok⟩ := h
      subst hbg
      subst htok
      refine ⟨⟨fun _ => ⟨_, hgl, hamp⟩, fun _ => rfl⟩, ?_, ?_⟩
      · simp
      · simp [List.length_dropLast]
    · have hfin : plFinish (a0 :: rest) inf outf 0 =
          some (false, ⟨(a0 :: rest).length, a0 :: rest,
            inf, outf, classifyBuiltin a0⟩) := by
        simp only [plFinish, hgl]
        simp [hamp]
      rw [hfin] at h
      simp only [Option.some.injEq, Prod.mk.injEq] at h
      obtain ⟨hbg, htok⟩ := h
      subst hbg
      subst htok
      refine ⟨⟨fun hf => by simp at hf, fun he => ?_⟩, by simp, by simp⟩
      obtain ⟨t, ht, hhd⟩ := he
      rw [hgl] at ht
      simp at ht
      subst ht
      exact absurd hhd hamp

/-- C5 witness: the amended marker law applied to the token list
`["echo", "&x"]` — the final token begins with `&`, so the request is
background and the token is dropped. -/
theorem c5_amended_background_marker_witness :
    ((true : Bool) = true ↔
      ∃ t, (["echo", "&x"] : List String).getLast? = some t ∧
        t.data.head? = some '&') ∧
    (⟨1, ["echo"], none, none, .BUILTIN_NONE⟩ : CmdTokens).argv =
      (if (true : Bool) = true then
        (["echo", "&x"] : List String).dropLast else ["echo", "&x"]) ∧
    (⟨1, ["echo"], none, none, .BUILTIN_NONE⟩ : CmdTokens).argc =
      (⟨1, ["echo"], none, none, .BUILTIN_NONE⟩ : CmdTokens).argv.length :=
  c5_amended_background_marker ["echo", "&x"] none none true
    ⟨1, ["echo"], none, none, .BUILTIN_NONE⟩ (by decide) (by decide)

end Tsh
